import Mathlib

/-!
Shallow embedding of the PushPress/paginate library (source: src/unnamed/part_000,
the current revision of src/index.ts, together with its operator functions).

The async generator `paginateGenerator` is modelled as a small-step state
machine: one JavaScript `next()` call on the generator corresponds to running
micro-steps until one of them yields an item or terminates.  Each micro-step
performs a bounded piece of the generator body (one fetch attempt with its
error handling, or the delivery of one buffered item of the current page, or
the end-of-page bookkeeping) and reports the hook invocations it performs as a
list of events.  Hooks are modelled by their only observable effects: presence
(an absent hook is never invoked) and, for `onError`, whether a given
invocation throws.  The fetch callback is a pure function of the number of
fetch calls made so far and of the request parameters, returning either a
result or a thrown error value; this models deterministic test doubles such as
the `vi.fn` callbacks of the test suite.

JavaScript `undefined` versus `null` matters for the cursor pointer
(`currentCursor = options.initialCursor` and
`currentCursor = result.pageInfo.nextCursor` copy the value without any
`?? null` defaulting), so cursors are modelled by a three-way type.
-/

namespace Paginate

/-- A JavaScript cursor value: `undefined` (also used for an absent
`nextCursor` field), `null`, or a string. -/
inductive JSCursor where
  | undef
  | null
  | str (s : String)
deriving DecidableEq, Repr

/-- Model of `PageInfo` as returned by the fetch callback.  An absent `nextCursor`
field is `JSCursor.undef`. -/
structure PageInfo where
  hasNextPage : Bool
  nextCursor : JSCursor
deriving DecidableEq, Repr

/-- Model of `PaginatedResult<T>`: one page of items plus its page info. -/
structure PaginatedResult (T : Type) where
  items : List T
  pageInfo : PageInfo
deriving DecidableEq, Repr

/-- The parameters object built by `paginateGenerator` before each fetch:
`limit` plus exactly one of `offset`, `page`, `cursor`. -/
inductive FetchParams where
  | offsetP (limit : Int) (off : Int)
  | pageP (limit : Int) (pg : Int)
  | cursorP (limit : Int) (cur : JSCursor)
deriving DecidableEq, Repr

/-- Model of `ErrorPolicy`.  The custom handler is modelled as a pure function of the
error and of the `consecutiveErrors` count it is invoked with; `true` means
continue. -/
inductive ErrorPolicy (E : Type) where
  | cont (maxErrorCount : Int)
  | thrw
  | brk
  | custom (handler : E → Nat → Bool)

/-- Model of `PaginationHooks`, by observable behaviour.  `onError` is
`some f` when the hook is present, and `f e = true` means that invoking the
hook on error `e` throws (the only way a hook influences control flow in the
source). -/
structure Hooks (E : Type) where
  onPagePresent : Bool
  onError : Option (E → Bool)
  onReturnPresent : Bool
  onMaxPresent : Bool

/-- The strategy together with its strategy-specific initial pointer field.
`initialOffset`/`initialPage` go through `?? 0` / `?? 1` in the source, so
`none` covers both `undefined` and `null`; `initialCursor` is copied without
defaulting, so it is a full `JSCursor`. -/
inductive StrategyConfig where
  | offset (initOff : Option Int)
  | page (initPg : Option Int)
  | cursor (initCur : JSCursor)

/-- Model of `PaginationOptions`. -/
structure PaginationOptions (E : Type) where
  strategy : StrategyConfig
  limit : Int
  errorPolicy : ErrorPolicy E
  hooks : Hooks E

/-- Hook invocations and fetch calls observed during a run. -/
inductive Event (E : Type) where
  | onPage (off : Option Int) (pg : Option Int) (cur : Option JSCursor)
  | fetchEv (p : FetchParams)
  | onError (e : E)
  | onMax (e : E) (count : Nat)
  | onReturn
deriving DecidableEq, Repr

/-- Where the generator body is suspended: at the top of the loop (about to
run `onPage` and fetch), inside `yield* result.items` with the remaining
items of the current page, or finished. -/
inductive Phase (T : Type) where
  | fetching
  | yielding (rest : List T) (info : PageInfo)
  | completed
deriving DecidableEq, Repr

/-- The mutable state of `paginateGenerator`: the loop-local variables plus
the suspension point and the number of fetch calls made so far (the latter
only indexes the callback model). -/
structure MachState (T : Type) where
  phase : Phase T
  consecutiveErrorCount : Nat
  currentOffset : Int
  currentPage : Int
  currentCursor : JSCursor
  fetchCount : Nat
deriving DecidableEq, Repr

/-- The result of one micro-step: an item was yielded to the consumer,
internal progress was made, the generator returned, or it threw `e`. -/
inductive StepOut (T E : Type) where
  | yielded (a : T) (evs : List (Event E)) (s : MachState T)
  | internal (evs : List (Event E)) (s : MachState T)
  | done (evs : List (Event E)) (s : MachState T)
  | thrown (e : E) (evs : List (Event E)) (s : MachState T)

/-- The fetch callback model: a function of the fetch-call index and the
request parameters, returning a result or a thrown error. -/
def Callback (T E : Type) := Nat → FetchParams → Except E (PaginatedResult T)

/-- Lines 207-221 of the source: variable initialisation.  `currentOffset`,
`currentPage`, `currentCursor` start at `0`, `1`, `null` and the branch for
the configured strategy overrides its own pointer (for the page strategy also
`currentOffset`). -/
def initState (opts : PaginationOptions E) : MachState T :=
  match opts.strategy with
  | .offset io => ⟨.fetching, 0, io.getD 0, 1, .null, 0⟩
  | .page ip =>
      let p := ip.getD 1
      ⟨.fetching, 0, (p - 1) * opts.limit, p, .null, 0⟩
  | .cursor ic => ⟨.fetching, 0, 0, 1, ic, 0⟩

/-- Lines 225-231: the `onPage` hook invocation (only when present); each
field is populated only for the active strategy. -/
def pageEvent (opts : PaginationOptions E) (s : MachState T) : List (Event E) :=
  if opts.hooks.onPagePresent then
    [Event.onPage
      (match opts.strategy with | .offset _ => some s.currentOffset | _ => none)
      (match opts.strategy with | .page _ => some s.currentPage | _ => none)
      (match opts.strategy with | .cursor _ => some s.currentCursor | _ => none)]
  else []

/-- Lines 233-240: the request parameters for the active strategy. -/
def mkParams (opts : PaginationOptions E) (s : MachState T) : FetchParams :=
  match opts.strategy with
  | .offset _ => .offsetP opts.limit s.currentOffset
  | .page _ => .pageP opts.limit s.currentPage
  | .cursor _ => .cursorP opts.limit s.currentCursor

/-- The `onReturn` hook invocation (only when present). -/
def returnEvent (opts : PaginationOptions E) : List (Event E) :=
  if opts.hooks.onReturnPresent then [Event.onReturn] else []

/-- The `onMaxConsecutiveErrors` hook invocation (only when present). -/
def maxEvent (opts : PaginationOptions E) (e : E) (c : Nat) : List (Event E) :=
  if opts.hooks.onMaxPresent then [Event.onMax e c] else []

/-- Lines 252-259: pointer advancement after a successful fetch with
`hasNextPage` true.  The cursor is assigned `result.pageInfo.nextCursor`
unconditionally. -/
def advanceSuccess (opts : PaginationOptions E) (s : MachState T)
    (info : PageInfo) : MachState T :=
  match opts.strategy with
  | .offset _ => { s with currentOffset := s.currentOffset + opts.limit }
  | .page _ => { s with currentPage := s.currentPage + 1,
                        currentOffset := (s.currentPage + 1 - 1) * opts.limit }
  | .cursor _ => { s with currentCursor := info.nextCursor }

/-- Lines 321-328: pointer advancement when a fetch failed and the resolved
action is continue: offset and page advance, cursor stays. -/
def advanceFailure (opts : PaginationOptions E) (s : MachState T) : MachState T :=
  match opts.strategy with
  | .offset _ => { s with currentOffset := s.currentOffset + opts.limit }
  | .page _ => { s with currentPage := s.currentPage + 1,
                        currentOffset := (s.currentPage + 1 - 1) * opts.limit }
  | .cursor _ => s

/-- The `continue`-policy tail (lines 293-303 and the action switch): compare
the already incremented `consecutiveErrorCount` with `maxErrorCount`, fire
`onMaxConsecutiveErrors` when exceeded, then break or continue. -/
def contAfterOnError (opts : PaginationOptions E) (s : MachState T) (e : E)
    (evs : List (Event E)) (maxEC : Int) : StepOut T E :=
  if maxEC ≤ (s.consecutiveErrorCount : Int) then
    .done (evs ++ maxEvent opts e s.consecutiveErrorCount ++ returnEvent opts)
      { s with phase := .completed }
  else
    .internal evs { (advanceFailure opts s) with phase := .fetching }

/-- Lines 262-330, the `catch` block: `s` already carries the incremented
`consecutiveErrorCount`; `evs` are the events of the step so far (the
`onPage` invocation and the fetch call). -/
def handleError (opts : PaginationOptions E) (s : MachState T) (e : E)
    (evs : List (Event E)) : StepOut T E :=
  match opts.errorPolicy with
  | .thrw => .thrown e evs { s with phase := .completed }
  | .brk =>
      match opts.hooks.onError with
      | some _ =>
          .done (evs ++ [Event.onError e] ++ returnEvent opts)
            { s with phase := .completed }
      | none => .done (evs ++ returnEvent opts) { s with phase := .completed }
  | .cont maxEC =>
      match opts.hooks.onError with
      | some f =>
          if f e then
            .done (evs ++ [Event.onError e] ++ returnEvent opts)
              { s with phase := .completed }
          else contAfterOnError opts s e (evs ++ [Event.onError e]) maxEC
      | none => contAfterOnError opts s e evs maxEC
  | .custom h =>
      if h e s.consecutiveErrorCount then
        .internal evs { (advanceFailure opts s) with phase := .fetching }
      else
        .done (evs ++ returnEvent opts) { s with phase := .completed }

/-- One micro-step of `paginateGenerator`.  From `fetching` it runs `onPage`,
one fetch attempt and, on failure, the whole error handling; from
`yielding` it delivers the next buffered item, or, when the page is drained,
performs the `hasNextPage` check of line 247 (terminating via `onReturn`) or
the advancement of lines 252-260 (which also resets
`consecutiveErrorCount`). -/
def microStep (cb : Callback T E) (opts : PaginationOptions E)
    (s : MachState T) : StepOut T E :=
  match s.phase with
  | .completed => .done [] s
  | .yielding (a :: rest) info =>
      .yielded a [] { s with phase := .yielding rest info }
  | .yielding [] info =>
      if info.hasNextPage then
        .internal []
          { (advanceSuccess opts s info) with
              phase := .fetching, consecutiveErrorCount := 0 }
      else
        .done (returnEvent opts) { s with phase := .completed }
  | .fetching =>
      let evs0 := pageEvent opts s
      let p := mkParams opts s
      match cb s.fetchCount p with
      | .ok result =>
          .internal (evs0 ++ [Event.fetchEv p])
            { s with phase := .yielding result.items result.pageInfo,
                     fetchCount := s.fetchCount + 1 }
      | .error e =>
          handleError opts
            { s with consecutiveErrorCount := s.consecutiveErrorCount + 1,
                     fetchCount := s.fetchCount + 1 }
            e (evs0 ++ [Event.fetchEv p])

/-- Fully draining the generator with `fuel` micro-steps: the yielded items,
the event trace, and `some e` when the run ended in a thrown error (`none`
for clean completion).  `none` overall means the fuel ran out. -/
def drain (cb : Callback T E) (opts : PaginationOptions E) :
    Nat → MachState T → Option (List T × List (Event E) × Option E)
  | 0, _ => none
  | fuel + 1, s =>
      match microStep cb opts s with
      | .yielded a evs s' =>
          (drain cb opts fuel s').map fun r => (a :: r.1, evs ++ r.2.1, r.2.2)
      | .internal evs s' =>
          (drain cb opts fuel s').map fun r => (r.1, evs ++ r.2.1, r.2.2)
      | .done evs _ => some ([], evs, none)
      | .thrown e evs _ => some ([], evs, some e)

/-- The generator, started at `initState`, can be drained to completion with
result `r` (items, events, terminal error). -/
def Drains (cb : Callback T E) (opts : PaginationOptions E) (s : MachState T)
    (r : List T × List (Event E) × Option E) : Prop :=
  ∃ fuel, drain cb opts fuel s = some r

/-- Is an event an `onError` invocation? -/
def isOnError : Event E → Bool
  | .onError _ => true
  | _ => false

/-- Is an event an `onMaxConsecutiveErrors` invocation? -/
def isOnMax : Event E → Bool
  | .onMax _ _ => true
  | _ => false

/-- Is an event a fetch call? -/
def isFetch : Event E → Bool
  | .fetchEv _ => true
  | _ => false

/-- The fetch-call parameters of a trace, in order. -/
def fetchParamsOf (evs : List (Event E)) : List FetchParams :=
  evs.filterMap fun ev =>
    match ev with
    | .fetchEv p => some p
    | _ => none

/-!  The model of the standalone `take` operator (lines 580-591 of the
source).  The source sequence is a list; the model returns the yielded items
together with the number of `next()` pulls performed on the source (a pull
that finds the source exhausted counts, since the `for await` loop performs
it before discovering the end). -/

/-- The `for await` loop body of `take` with `remaining` yields still
allowed (`remaining` is `count - taken` and is at least 1 on entry): pull
once; if the source is exhausted stop, otherwise yield the item and either
break (when the yield quota is used up) or loop. -/
def takeGo : List α → Nat → List α × Nat
  | [], _ => ([], 1)
  | a :: l, remaining =>
      if remaining ≤ 1 then ([a], 1)
      else
        let r := takeGo l (remaining - 1)
        (a :: r.1, r.2 + 1)

/-- Model of `take(iterable, count)`: the guard `if (count <= 0) return;` followed by
the loop.  Returns (yielded items, number of pulls on the source). -/
def take (source : List α) (count : Int) : List α × Nat :=
  if count ≤ 0 then ([], 0) else takeGo source count.toNat

/-- The events (hook invocations and fetch calls) of one micro-step. -/
def StepOut.events : StepOut T E → List (Event E)
  | .yielded _ evs _ => evs
  | .internal evs _ => evs
  | .done evs _ => evs
  | .thrown _ evs _ => evs

/-- Is the micro-step a normal return of the generator (the `break`/`return`
paths, the only ones that can run `onReturn`)? -/
def StepOut.isDone : StepOut T E → Bool
  | .done _ _ => true
  | _ => false

/-- Ceiling division on naturals, ceil(a / b). -/
def ceilNat (a b : Nat) : Nat := (a + b - 1) / b

/-! Concrete scenario ingredients used by counterexamples and witnesses. -/

/-- No hooks installed. -/
def noHooks : Hooks Unit := ⟨false, none, false, false⟩

/-- A cursor-strategy callback: any string cursor gets an empty page with
`hasNextPage: true` and an absent `nextCursor`; anything else gets a final
empty page. -/
def cbC1 : Callback Nat Unit := fun _ p =>
  match p with
  | .cursorP _ (.str _) => .ok ⟨[], ⟨true, .undef⟩⟩
  | _ => .ok ⟨[], ⟨false, .undef⟩⟩

/-- Cursor strategy starting from cursor "start", throw policy, no hooks. -/
def optsC1 : PaginationOptions Unit :=
  ⟨.cursor (.str "start"), 10, .thrw, noHooks⟩

/-- A callback that fails on every call. -/
def failCB : Callback Nat Unit := fun _ _ => .error ()

/-- A callback returning a single, final, empty page. -/
def emptyCB : Callback Nat Unit := fun _ _ => .ok ⟨[], ⟨false, .undef⟩⟩

/-- The deterministic offset-strategy page server over a fixed item list:
responds to offset `o` with the slice of length `limit` starting at `o`,
and `hasNextPage` exactly when `o + limit` is still short of the total
count (this is the shape of the callbacks in the repository's test
suite). -/
def sliceServer (xs : List T) : Callback T Unit := fun _ p =>
  match p with
  | .offsetP l off =>
      .ok ⟨(xs.drop off.toNat).take l.toNat,
           ⟨decide (off + l < (xs.length : Int)), .undef⟩⟩
  | _ => .error ()

/-- Offset strategy with `initialOffset 0`, page size `L`, throw policy. -/
def offsetOpts (L : Nat) : PaginationOptions Unit :=
  ⟨.offset (some 0), (L : Int), .thrw, noHooks⟩

/-- Offset strategy, `continue` policy with `maxErrorCount 1`, hooks
`onError` (never throwing), `onReturn` and `onMaxConsecutiveErrors`
installed. -/
def contOpts : PaginationOptions Unit :=
  ⟨.offset none, 1, .cont 1, ⟨false, some (fun _ => false), true, true⟩⟩

/-- Offset strategy, `break` policy, with an `onError` hook that itself
throws and an `onReturn` hook. -/
def brkThrowOpts : PaginationOptions Unit :=
  ⟨.offset none, 5, .brk, ⟨false, some (fun _ => true), true, false⟩⟩

/-- Cursor strategy with a custom policy whose handler continues while the
consecutive-error count is below 2. -/
def customOpts : PaginationOptions Unit :=
  ⟨.cursor .null, 7, .custom (fun _ n => decide (n < 2)), noHooks⟩

/-- Page strategy, `continue` policy with `maxErrorCount 5`, no hooks. -/
def contNoHookOpts : PaginationOptions Unit :=
  ⟨.page none, 3, .cont 5, noHooks⟩

/-- Offset strategy with the throw policy and no hooks, limit 2. -/
def thrwOpts : PaginationOptions Unit :=
  ⟨.offset none, 2, .thrw, noHooks⟩

/-- A machine state suspended at the top of the `while` loop (about to run
`onPage` and fetch). -/
abbrev stF (T : Type) (c : Nat) (off pg : Int) (cur : JSCursor) (fc : Nat) :
    MachState T :=
  ⟨.fetching, c, off, pg, cur, fc⟩

/-- A machine state suspended inside `yield* result.items`, with `rest`
still to deliver. -/
abbrev stY (T : Type) (rest : List T) (info : PageInfo) (c : Nat) (off pg : Int)
    (cur : JSCursor) (fc : Nat) : MachState T :=
  ⟨.yielding rest info, c, off, pg, cur, fc⟩

/-- What the state looks like after a fetch failure at state
`(stF T c off pg cur fc)` whose resolved action is continue: the error count
is incremented (never reset on this path), the machine is back at the top of
the loop, and the pointer advanced for offset (by `limit`) and page (by 1)
but is unchanged for cursor. -/
def failContinueState (opts : PaginationOptions E) (c : Nat) (off pg : Int)
    (cur : JSCursor) (fc : Nat) (s' : MachState T) : Prop :=
  s'.consecutiveErrorCount = c + 1 ∧ s'.phase = .fetching ∧
  s'.fetchCount = fc + 1 ∧
  (∀ io, opts.strategy = .offset io →
    s'.currentOffset = off + opts.limit ∧ s'.currentCursor = cur) ∧
  (∀ ip, opts.strategy = .page ip →
    s'.currentPage = pg + 1 ∧ s'.currentCursor = cur) ∧
  (∀ ic, opts.strategy = .cursor ic →
    s'.currentCursor = cur ∧ s'.currentOffset = off ∧ s'.currentPage = pg)

/-! Basic lemmas for assembling `Drains` runs from micro-steps. -/

theorem drains_done {cb : Callback T E} {opts : PaginationOptions E}
    {s s' : MachState T} {evs : List (Event E)}
    (h : microStep cb opts s = .done evs s') :
    Drains cb opts s ([], evs, none) := by
  exact ⟨1, by simp [drain, h]⟩

theorem drains_thrown {cb : Callback T E} {opts : PaginationOptions E}
    {s s' : MachState T} {evs : List (Event E)} {e : E}
    (h : microStep cb opts s = .thrown e evs s') :
    Drains cb opts s ([], evs, some e) := by
  exact ⟨1, by simp [drain, h]⟩

theorem drains_internal {cb : Callback T E} {opts : PaginationOptions E}
    {s s' : MachState T} {evs es : List (Event E)} {is : List T}
    {r : Option E} (h : microStep cb opts s = .internal evs s')
    (h2 : Drains cb opts s' (is, es, r)) :
    Drains cb opts s (is, evs ++ es, r) := by
  obtain ⟨fuel, hf⟩ := h2
  exact ⟨fuel + 1, by simp [drain, h, hf]⟩

theorem drains_yield {cb : Callback T E} {opts : PaginationOptions E}
    {s s' : MachState T} {evs es : List (Event E)} {a : T} {is : List T}
    {r : Option E} (h : microStep cb opts s = .yielded a evs s')
    (h2 : Drains cb opts s' (is, es, r)) :
    Drains cb opts s (a :: is, evs ++ es, r) := by
  obtain ⟨fuel, hf⟩ := h2
  exact ⟨fuel + 1, by simp [drain, h, hf]⟩

/-- Delivering the buffered items of the current page one by one: draining
from a `yielding page info` suspension yields `page` first and then behaves
like the drained-page state. -/
theorem drains_yielding_append {cb : Callback T E} {opts : PaginationOptions E}
    (page : List T) (info : PageInfo) (c : Nat) (off pg : Int) (cur : JSCursor)
    (fc : Nat) {is : List T} {evs : List (Event E)} {r : Option E}
    (h : Drains cb opts ⟨.yielding [] info, c, off, pg, cur, fc⟩ (is, evs, r)) :
    Drains cb opts ⟨.yielding page info, c, off, pg, cur, fc⟩
      (page ++ is, evs, r) := by
  induction page with
  | nil => simpa using h
  | cons a rest ih =>
      have hstep : microStep cb opts
          ⟨.yielding (a :: rest) info, c, off, pg, cur, fc⟩ =
          .yielded a [] ⟨.yielding rest info, c, off, pg, cur, fc⟩ := rfl
      simpa using drains_yield hstep ih

/-! Facts about the event lists produced by the hook helpers. -/

theorem pageEvent_countP (opts : PaginationOptions E) (s : MachState T)
    (p : Event E → Bool) (hp : ∀ o pg c, p (Event.onPage o pg c) = false) :
    (pageEvent opts s).countP p = 0 := by
  by_cases h : opts.hooks.onPagePresent <;> simp [pageEvent, h, hp]

theorem returnEvent_countP (opts : PaginationOptions E)
    (p : Event E → Bool) (hp : p Event.onReturn = false) :
    (returnEvent opts).countP p = 0 := by
  by_cases h : opts.hooks.onReturnPresent <;> simp [returnEvent, h, hp]

theorem pageEvent_filter (opts : PaginationOptions E) (s : MachState T)
    (p : Event E → Bool) (hp : ∀ o pg c, p (Event.onPage o pg c) = false) :
    (pageEvent opts s).filter p = [] := by
  by_cases h : opts.hooks.onPagePresent <;> simp [pageEvent, h, hp]

theorem returnEvent_filter (opts : PaginationOptions E)
    (p : Event E → Bool) (hp : p Event.onReturn = false) :
    (returnEvent opts).filter p = [] := by
  by_cases h : opts.hooks.onReturnPresent <;> simp [returnEvent, h, hp]

theorem onReturn_not_mem_pageEvent (opts : PaginationOptions E)
    (s : MachState T) : Event.onReturn ∉ pageEvent opts s := by
  by_cases h : opts.hooks.onPagePresent <;> simp [pageEvent, h]

theorem pageEvent_fetchParams (opts : PaginationOptions E) (s : MachState T) :
    fetchParamsOf (pageEvent opts s) = [] := by
  by_cases h : opts.hooks.onPagePresent <;> simp [pageEvent, h, fetchParamsOf]

theorem returnEvent_fetchParams (opts : PaginationOptions E) :
    fetchParamsOf (returnEvent opts) = [] := by
  by_cases h : opts.hooks.onReturnPresent <;>
    simp [returnEvent, h, fetchParamsOf]

/-! Characterization of the individual micro-steps, one lemma per control
path of the generator body. -/

theorem microStep_fetch_ok {cb : Callback T E} {opts : PaginationOptions E}
    {c : Nat} {off pg : Int} {cur : JSCursor} {fc : Nat}
    {res : PaginatedResult T}
    (hcb : cb fc (mkParams opts (stF T c off pg cur fc)) = .ok res) :
    microStep cb opts (stF T c off pg cur fc) =
      .internal (pageEvent opts (stF T c off pg cur fc) ++
          [Event.fetchEv (mkParams opts (stF T c off pg cur fc))])
        ⟨.yielding res.items res.pageInfo, c, off, pg, cur, fc + 1⟩ := by
  simp [stF, stY, microStep, hcb]

theorem microStep_yielding_nil_true {cb : Callback T E}
    {opts : PaginationOptions E} {c : Nat} {off pg : Int} {cur : JSCursor}
    {fc : Nat} {info : PageInfo} (hnext : info.hasNextPage = true) :
    microStep cb opts (stY T [] info c off pg cur fc) =
      .internal []
        { (advanceSuccess opts (stY T [] info c off pg cur fc) info)
            with phase := .fetching, consecutiveErrorCount := 0 } := by
  simp [stF, stY, microStep, hnext]

theorem microStep_yielding_nil_false {cb : Callback T E}
    {opts : PaginationOptions E} {c : Nat} {off pg : Int} {cur : JSCursor}
    {fc : Nat} {info : PageInfo} (hnext : info.hasNextPage = false) :
    microStep cb opts (stY T [] info c off pg cur fc) =
      .done (returnEvent opts) ⟨.completed, c, off, pg, cur, fc⟩ := by
  simp [stF, stY, microStep, hnext]

theorem microStep_error_thrw {cb : Callback T E} {opts : PaginationOptions E}
    {c : Nat} {off pg : Int} {cur : JSCursor} {fc : Nat} {e : E}
    (hpol : opts.errorPolicy = .thrw)
    (hcb : cb fc (mkParams opts (stF T c off pg cur fc)) = .error e) :
    microStep cb opts (stF T c off pg cur fc) =
      .thrown e (pageEvent opts (stF T c off pg cur fc) ++
          [Event.fetchEv (mkParams opts (stF T c off pg cur fc))])
        ⟨.completed, c + 1, off, pg, cur, fc + 1⟩ := by
  simp [stF, stY, microStep, hcb, handleError, hpol]

theorem microStep_error_hookThrow {cb : Callback T E}
    {opts : PaginationOptions E} {c : Nat} {off pg : Int} {cur : JSCursor}
    {fc : Nat} {e : E} {f : E → Bool}
    (hpol : opts.errorPolicy = .brk ∨ ∃ K, opts.errorPolicy = .cont K)
    (hoe : opts.hooks.onError = some f) (hfe : f e = true)
    (hcb : cb fc (mkParams opts (stF T c off pg cur fc)) = .error e) :
    microStep cb opts (stF T c off pg cur fc) =
      .done (pageEvent opts (stF T c off pg cur fc) ++
          [Event.fetchEv (mkParams opts (stF T c off pg cur fc))] ++
          [Event.onError e] ++ returnEvent opts)
        ⟨.completed, c + 1, off, pg, cur, fc + 1⟩ := by
  rcases hpol with h | ⟨K, h⟩ <;>
    simp [stF, stY, microStep, hcb, handleError, h, hoe, hfe]

theorem microStep_error_brk {cb : Callback T E} {opts : PaginationOptions E}
    {c : Nat} {off pg : Int} {cur : JSCursor} {fc : Nat} {e : E} {f : E → Bool}
    (hpol : opts.errorPolicy = .brk)
    (hoe : opts.hooks.onError = some f)
    (hcb : cb fc (mkParams opts (stF T c off pg cur fc)) = .error e) :
    microStep cb opts (stF T c off pg cur fc) =
      .done (pageEvent opts (stF T c off pg cur fc) ++
          [Event.fetchEv (mkParams opts (stF T c off pg cur fc))] ++
          [Event.onError e] ++ returnEvent opts)
        ⟨.completed, c + 1, off, pg, cur, fc + 1⟩ := by
  simp [stF, stY, microStep, hcb, handleError, hpol, hoe]

theorem microStep_error_cont_continue {cb : Callback T E}
    {opts : PaginationOptions E} {c : Nat} {off pg : Int} {cur : JSCursor}
    {fc : Nat} {e : E} {f : E → Bool} {K : Int}
    (hpol : opts.errorPolicy = .cont K)
    (hoe : opts.hooks.onError = some f) (hfe : f e = false)
    (hlt : (c : Int) + 1 < K)
    (hcb : cb fc (mkParams opts (stF T c off pg cur fc)) = .error e) :
    microStep cb opts (stF T c off pg cur fc) =
      .internal (pageEvent opts (stF T c off pg cur fc) ++
          [Event.fetchEv (mkParams opts (stF T c off pg cur fc))] ++
          [Event.onError e])
        { (advanceFailure opts (stF T (c + 1) off pg cur (fc + 1)))
            with phase := .fetching } := by
  simp [stF, stY, microStep, hcb, handleError, hpol, hoe, hfe,
    contAfterOnError]
  omega

theorem microStep_error_cont_break {cb : Callback T E}
    {opts : PaginationOptions E} {c : Nat} {off pg : Int} {cur : JSCursor}
    {fc : Nat} {e : E} {f : E → Bool} {K : Int}
    (hpol : opts.errorPolicy = .cont K)
    (hoe : opts.hooks.onError = some f) (hfe : f e = false)
    (hge : K ≤ (c : Int) + 1)
    (hcb : cb fc (mkParams opts (stF T c off pg cur fc)) = .error e) :
    microStep cb opts (stF T c off pg cur fc) =
      .done (pageEvent opts (stF T c off pg cur fc) ++
          [Event.fetchEv (mkParams opts (stF T c off pg cur fc))] ++
          [Event.onError e] ++ maxEvent opts e (c + 1) ++ returnEvent opts)
        ⟨.completed, c + 1, off, pg, cur, fc + 1⟩ := by
  simp [stF, stY, microStep, hcb, handleError, hpol, hoe, hfe,
    contAfterOnError]
  omega

theorem microStep_error_cont_noHook_continue {cb : Callback T E}
    {opts : PaginationOptions E} {c : Nat} {off pg : Int} {cur : JSCursor}
    {fc : Nat} {e : E} {K : Int}
    (hpol : opts.errorPolicy = .cont K)
    (hoe : opts.hooks.onError = none)
    (hlt : (c : Int) + 1 < K)
    (hcb : cb fc (mkParams opts (stF T c off pg cur fc)) = .error e) :
    microStep cb opts (stF T c off pg cur fc) =
      .internal (pageEvent opts (stF T c off pg cur fc) ++
          [Event.fetchEv (mkParams opts (stF T c off pg cur fc))])
        { (advanceFailure opts (stF T (c + 1) off pg cur (fc + 1)))
            with phase := .fetching } := by
  simp [stF, stY, microStep, hcb, handleError, hpol, hoe, contAfterOnError]
  omega

theorem microStep_error_custom_true {cb : Callback T E}
    {opts : PaginationOptions E} {c : Nat} {off pg : Int} {cur : JSCursor}
    {fc : Nat} {e : E} {h : E → Nat → Bool}
    (hpol : opts.errorPolicy = .custom h)
    (hh : h e (c + 1) = true)
    (hcb : cb fc (mkParams opts (stF T c off pg cur fc)) = .error e) :
    microStep cb opts (stF T c off pg cur fc) =
      .internal (pageEvent opts (stF T c off pg cur fc) ++
          [Event.fetchEv (mkParams opts (stF T c off pg cur fc))])
        { (advanceFailure opts (stF T (c + 1) off pg cur (fc + 1)))
            with phase := .fetching } := by
  simp [stF, stY, microStep, hcb, handleError, hpol, hh]

theorem microStep_error_custom_false {cb : Callback T E}
    {opts : PaginationOptions E} {c : Nat} {off pg : Int} {cur : JSCursor}
    {fc : Nat} {e : E} {h : E → Nat → Bool}
    (hpol : opts.errorPolicy = .custom h)
    (hh : h e (c + 1) = false)
    (hcb : cb fc (mkParams opts (stF T c off pg cur fc)) = .error e) :
    microStep cb opts (stF T c off pg cur fc) =
      .done (pageEvent opts (stF T c off pg cur fc) ++
          [Event.fetchEv (mkParams opts (stF T c off pg cur fc))] ++
          returnEvent opts)
        ⟨.completed, c + 1, off, pg, cur, fc + 1⟩ := by
  simp [stF, stY, microStep, hcb, handleError, hpol, hh]

/-! Decomposition of full drains. -/

/-- The first micro-step's events are part of any successful drain, so any
per-predicate count of them bounds the drain's count. -/
theorem drain_le_countP {cb : Callback T E} {opts : PaginationOptions E}
    (p : Event E → Bool) {fuel : Nat} {s : MachState T} {is : List T}
    {evs : List (Event E)} {r : Option E}
    (h : drain cb opts fuel s = some (is, evs, r)) :
    ((microStep cb opts s).events).countP p ≤ evs.countP p := by
  cases fuel with
  | zero => simp [drain] at h
  | succ n =>
      rw [drain] at h
      cases hstep : microStep cb opts s with
      | yielded a evs1 s' =>
          rw [hstep] at h
          obtain ⟨r0, _, heq⟩ := Option.map_eq_some'.mp h
          cases heq
          simp [StepOut.events, List.countP_append]
      | internal evs1 s' =>
          rw [hstep] at h
          obtain ⟨r0, _, heq⟩ := Option.map_eq_some'.mp h
          cases heq
          simp [StepOut.events, List.countP_append]
      | done evs1 s' =>
          rw [hstep] at h
          cases h
          simp [StepOut.events]
      | thrown e evs1 s' =>
          rw [hstep] at h
          cases h
          simp [StepOut.events]

/-- If no micro-step can produce an event satisfying `p`, neither does a full
drain. -/
theorem drain_countP_zero {cb : Callback T E} {opts : PaginationOptions E}
    (p : Event E → Bool)
    (hstep : ∀ s : MachState T, ((microStep cb opts s).events).countP p = 0) :
    ∀ (fuel : Nat) (s : MachState T) (is : List T) (evs : List (Event E))
      (r : Option E), drain cb opts fuel s = some (is, evs, r) →
      evs.countP p = 0 := by
  intro fuel
  induction fuel with
  | zero => intro s is evs r h; simp [drain] at h
  | succ n ih =>
      intro s is evs r h
      rw [drain] at h
      cases hstep2 : microStep cb opts s with
      | yielded a evs1 s' =>
          rw [hstep2] at h
          obtain ⟨r0, hr0, heq⟩ := Option.map_eq_some'.mp h
          cases heq
          have h1 := hstep s
          rw [hstep2] at h1
          simp only [StepOut.events] at h1
          simp [List.countP_append, h1, ih s' _ _ _ hr0]
      | internal evs1 s' =>
          rw [hstep2] at h
          obtain ⟨r0, hr0, heq⟩ := Option.map_eq_some'.mp h
          cases heq
          have h1 := hstep s
          rw [hstep2] at h1
          simp only [StepOut.events] at h1
          simp [List.countP_append, h1, ih s' _ _ _ hr0]
      | done evs1 s' =>
          rw [hstep2] at h
          cases h
          have h1 := hstep s
          rw [hstep2] at h1
          simpa [StepOut.events] using h1
      | thrown e evs1 s' =>
          rw [hstep2] at h
          cases h
          have h1 := hstep s
          rw [hstep2] at h1
          simpa [StepOut.events] using h1

/-! Further helper lemmas. -/

theorem onReturn_not_mem_page_fetch (opts : PaginationOptions E)
    (s : MachState T) (p : FetchParams) :
    Event.onReturn ∉ pageEvent opts s ++ [Event.fetchEv p] := by
  intro h
  rcases List.mem_append.mp h with h | h
  · exact onReturn_not_mem_pageEvent opts s h
  · simp at h

/-- Error handling only mentions `onReturn` in branches that return. -/
theorem handleError_onReturn (opts : PaginationOptions E) (s : MachState T)
    (e : E) (evs : List (Event E)) (hevs : Event.onReturn ∉ evs)
    (hmem : Event.onReturn ∈ (handleError opts s e evs).events) :
    (handleError opts s e evs).isDone = true := by
  rcases hpol : opts.errorPolicy with K | _ | _ | h
  · rcases hoe : opts.hooks.onError with _ | f
    · by_cases hc : K ≤ (s.consecutiveErrorCount : Int)
      · simp [handleError, hpol, hoe, contAfterOnError, hc, StepOut.isDone]
      · simp [handleError, hpol, hoe, contAfterOnError, hc,
          StepOut.events] at hmem
        exact absurd hmem hevs
    · by_cases hfe : f e
      · simp [handleError, hpol, hoe, hfe, StepOut.isDone]
      · by_cases hc : K ≤ (s.consecutiveErrorCount : Int)
        · simp [handleError, hpol, hoe, hfe, contAfterOnError, hc,
            StepOut.isDone]
        · have hq : (handleError opts s e evs).events =
              evs ++ [Event.onError e] := by
            simp [handleError, hpol, hoe, hfe, contAfterOnError, hc,
              StepOut.events]
          rw [hq] at hmem
          rcases List.mem_append.mp hmem with h2 | h2
          · exact absurd h2 hevs
          · simp at h2
  · simp [handleError, hpol, StepOut.events] at hmem
    exact absurd hmem hevs
  · rcases hoe : opts.hooks.onError with _ | f <;>
      simp [handleError, hpol, hoe, StepOut.isDone]
  · by_cases hh : h e s.consecutiveErrorCount
    · simp [handleError, hpol, hh, StepOut.events] at hmem
      exact absurd hmem hevs
    · simp [handleError, hpol, hh, StepOut.isDone]

/-- Error handling keeps the events accumulated so far. -/
theorem handleError_countP_le (opts : PaginationOptions E) (s : MachState T)
    (e : E) (evs : List (Event E)) (p : Event E → Bool) :
    evs.countP p ≤ ((handleError opts s e evs).events).countP p := by
  rcases hpol : opts.errorPolicy with K | _ | _ | h
  · rcases hoe : opts.hooks.onError with _ | f
    · by_cases hc : K ≤ (s.consecutiveErrorCount : Int) <;>
        simp [handleError, hpol, hoe, contAfterOnError, hc, StepOut.events,
          List.countP_append]
    · by_cases hfe : f e
      · simp [handleError, hpol, hoe, hfe, StepOut.events,
          List.countP_append]
      · by_cases hc : K ≤ (s.consecutiveErrorCount : Int) <;>
          simp [handleError, hpol, hoe, hfe, contAfterOnError, hc,
            StepOut.events, List.countP_append]
  · simp [handleError, hpol, StepOut.events]
  · rcases hoe : opts.hooks.onError with _ | f <;>
      simp [handleError, hpol, hoe, StepOut.events, List.countP_append]
  · by_cases hh : h e s.consecutiveErrorCount <;>
      simp [handleError, hpol, hh, StepOut.events, List.countP_append]

/-- Every micro-step taken from the top of the loop records its fetch
call. -/
theorem fetching_step_has_fetch (cb : Callback T E)
    (opts : PaginationOptions E) (c : Nat) (off pg : Int) (cur : JSCursor)
    (fc : Nat) :
    1 ≤ ((microStep cb opts (stF T c off pg cur fc)).events).countP isFetch := by
  cases hcb : cb fc (mkParams opts (stF T c off pg cur fc)) with
  | ok res =>
      rw [microStep_fetch_ok hcb]
      simp [StepOut.events, List.countP_append, isFetch]
  | error e =>
      have h1 : microStep cb opts (stF T c off pg cur fc) =
          handleError opts (stF T (c + 1) off pg cur (fc + 1)) e
            (pageEvent opts (stF T c off pg cur fc) ++
              [Event.fetchEv (mkParams opts (stF T c off pg cur fc))]) := by
        simp [microStep, hcb, stF]
      rw [h1]
      refine le_trans ?_ (handleError_countP_le _ _ _ _ _)
      simp [List.countP_append, isFetch]

/-- The initial state is always suspended at the top of the loop with zero
error count and zero fetches. -/
theorem initState_exists (T E : Type) (opts : PaginationOptions E) :
    ∃ off pg cur, (initState opts : MachState T) = stF T 0 off pg cur 0 := by
  rcases hs : opts.strategy with io | ip | ic
  · exact ⟨io.getD 0, 1, .null, by simp [initState, hs, stF]⟩
  · exact ⟨(ip.getD 1 - 1) * opts.limit, ip.getD 1, .null,
      by simp [initState, hs, stF]⟩
  · exact ⟨0, 1, ic, by simp [initState, hs, stF]⟩

/-- The loop body of `take`, characterized: with a quota of `r ≥ 1` it
yields the first `r` items and pulls `min r (length + 1)` times. -/
theorem takeGo_eq (xs : List α) : ∀ r : Nat, 1 ≤ r →
    takeGo xs r = (xs.take r, min r (xs.length + 1)) := by
  induction xs with
  | nil =>
      intro r hr
      simp [takeGo]
      omega
  | cons a l ih =>
      intro r hr
      by_cases h1 : r ≤ 1
      · have hr1 : r = 1 := by omega
        subst hr1
        simp [takeGo]
      · obtain ⟨m, rfl⟩ : ∃ m, r = m + 1 := ⟨r - 1, by omega⟩
        rw [takeGo]
        simp only [if_neg h1]
        rw [Nat.add_sub_cancel, ih m (by omega), List.take_succ_cons]
        have hmin : min (m + 1) (l.length + 1 + 1) = min m (l.length + 1) + 1 :=
          Nat.succ_min_succ m (l.length + 1)
        simp [hmin]

/-- C8: for every source sequence and integer count, `take(source, count)`
yields exactly the first `min(count, length source)` elements (the list
`source.take count.toNat`), and the number of pulls on the source is `0`
when `count ≤ 0` (it never pulls at all) and otherwise
`min count.toNat (length + 1)` — in particular never more than `count`
pulls, so once the quota is reached the remainder of the source is not
drained, and no further upstream work (such as page fetches) can occur. -/
theorem take_spec (α : Type) (source : List α) (count : Int) :
    take source count =
      (source.take count.toNat,
       if count ≤ 0 then 0 else min count.toNat (source.length + 1)) := by
  by_cases h : count ≤ 0
  · simp [take, h, Int.toNat_of_nonpos h]
  · have h1 : 1 ≤ count.toNat := by omega
    simp [take, h, takeGo_eq source _ h1]

/-- C7: under the throw policy, a fetch error `e` (of arbitrary type and
value) is re-raised unchanged: the micro-step reports `thrown e`, the drain
of the whole sequence terminates abnormally with `some e`, and `onReturn`
is not invoked on this path. -/
theorem throw_policy_rethrows (T E : Type) (cb : Callback T E)
    (opts : PaginationOptions E) (c : Nat) (off pg : Int) (cur : JSCursor)
    (fc : Nat) (e : E)
    (hpol : opts.errorPolicy = .thrw)
    (hcb : cb fc (mkParams opts (stF T c off pg cur fc)) = .error e) :
    microStep cb opts (stF T c off pg cur fc) =
      .thrown e (pageEvent opts (stF T c off pg cur fc) ++
        [Event.fetchEv (mkParams opts (stF T c off pg cur fc))])
        ⟨.completed, c + 1, off, pg, cur, fc + 1⟩ ∧
    Drains cb opts (stF T c off pg cur fc)
      ([], pageEvent opts (stF T c off pg cur fc) ++
        [Event.fetchEv (mkParams opts (stF T c off pg cur fc))], some e) ∧
    Event.onReturn ∉ pageEvent opts (stF T c off pg cur fc) ++
      [Event.fetchEv (mkParams opts (stF T c off pg cur fc))] := by
  have hstep := microStep_error_thrw hpol hcb
  exact ⟨hstep, drains_thrown hstep, onReturn_not_mem_page_fetch _ _ _⟩

/-- Witness for C7: a concrete failing fetch under the throw policy. -/
theorem throw_policy_rethrows_witness :
    microStep failCB thrwOpts (stF Nat 0 0 1 .null 0) =
      .thrown () (pageEvent thrwOpts (stF Nat 0 0 1 .null 0) ++
        [Event.fetchEv (mkParams thrwOpts (stF Nat 0 0 1 .null 0))])
        ⟨.completed, 1, 0, 1, .null, 1⟩ ∧
    Drains failCB thrwOpts (stF Nat 0 0 1 .null 0)
      ([], pageEvent thrwOpts (stF Nat 0 0 1 .null 0) ++
        [Event.fetchEv (mkParams thrwOpts (stF Nat 0 0 1 .null 0))],
        some ()) ∧
    Event.onReturn ∉ pageEvent thrwOpts (stF Nat 0 0 1 .null 0) ++
      [Event.fetchEv (mkParams thrwOpts (stF Nat 0 0 1 .null 0))] :=
  throw_policy_rethrows Nat Unit failCB thrwOpts 0 0 1 .null 0 () rfl rfl

/-- C10: the `onReturn` hook can only be invoked by a micro-step on which
the generator returns (the exhaustion `hasNextPage = false` path or an
error-policy break path).  A micro-step that yields an item, one that makes
internal progress, and one that throws never invoke it; hence a consumer
that abandons iteration while the generator is suspended at a yielded item
never sees `onReturn` run (abandonment runs no further generator code: the
body has no `finally`, and a `return()` completion does not enter `catch`
handlers). -/
theorem onReturn_only_on_return (T E : Type) (cb : Callback T E)
    (opts : PaginationOptions E) (s : MachState T)
    (hmem : Event.onReturn ∈ (microStep cb opts s).events) :
    (microStep cb opts s).isDone = true := by
  obtain ⟨ph, c, off, pg, cur, fc⟩ := s
  cases ph with
  | completed => simp [microStep, StepOut.isDone]
  | yielding rest info =>
      cases rest with
      | nil =>
          by_cases hn : info.hasNextPage
          · rw [microStep_yielding_nil_true hn] at hmem
            simp [StepOut.events] at hmem
          · have hn2 : info.hasNextPage = false := by simpa using hn
            rw [microStep_yielding_nil_false hn2]
            simp [StepOut.isDone]
      | cons a l => simp [microStep, StepOut.events] at hmem
  | fetching =>
      cases hcb : cb fc (mkParams opts (stF T c off pg cur fc)) with
      | ok res =>
          rw [microStep_fetch_ok hcb] at hmem
          exact absurd hmem (onReturn_not_mem_page_fetch _ _ _)
      | error e =>
          have h1 : microStep cb opts ⟨.fetching, c, off, pg, cur, fc⟩ =
              handleError opts (stF T (c + 1) off pg cur (fc + 1)) e
                (pageEvent opts (stF T c off pg cur fc) ++
                  [Event.fetchEv (mkParams opts (stF T c off pg cur fc))]) := by
            simp [microStep, hcb, stF]
          rw [h1] at hmem ⊢
          exact handleError_onReturn _ _ _ _
            (onReturn_not_mem_page_fetch _ _ _) hmem

/-- Witness for C10: a concrete exhaustion step; it contains `onReturn` and
is indeed a return step. -/
theorem onReturn_only_on_return_witness :
    (microStep emptyCB contOpts
      (stY Nat [] ⟨false, .undef⟩ 0 0 1 .null 1)).isDone = true :=
  onReturn_only_on_return Nat Unit emptyCB contOpts
    (stY Nat [] ⟨false, .undef⟩ 0 0 1 .null 1) (by decide)

/-- C4: under the break and continue policies, when the fetch fails and the
`onError` hook itself throws, pagination terminates immediately and
silently: the step returns (rather than throwing), the trace ends with the
`onError` invocation followed by `onReturn`, the full drain completes with
no exception (`none`), and the machine is completed, so no further fetches
occur. -/
theorem onError_throw_terminates (T E : Type) (cb : Callback T E)
    (opts : PaginationOptions E) (c : Nat) (off pg : Int) (cur : JSCursor)
    (fc : Nat) (e : E) (f : E → Bool)
    (hpol : opts.errorPolicy = .brk ∨ ∃ K, opts.errorPolicy = .cont K)
    (hoe : opts.hooks.onError = some f) (hfe : f e = true)
    (hret : opts.hooks.onReturnPresent = true)
    (hcb : cb fc (mkParams opts (stF T c off pg cur fc)) = .error e) :
    microStep cb opts (stF T c off pg cur fc) =
      .done (pageEvent opts (stF T c off pg cur fc) ++
        [Event.fetchEv (mkParams opts (stF T c off pg cur fc))] ++
        [Event.onError e] ++ [Event.onReturn])
        ⟨.completed, c + 1, off, pg, cur, fc + 1⟩ ∧
    Drains cb opts (stF T c off pg cur fc)
      ([], pageEvent opts (stF T c off pg cur fc) ++
        [Event.fetchEv (mkParams opts (stF T c off pg cur fc))] ++
        [Event.onError e] ++ [Event.onReturn], none) ∧
    microStep cb opts ⟨.completed, c + 1, off, pg, cur, fc + 1⟩ =
      .done [] ⟨.completed, c + 1, off, pg, cur, fc + 1⟩ := by
  have hstep := microStep_error_hookThrow hpol hoe hfe hcb
  have hret2 : returnEvent opts = [Event.onReturn] := by
    simp [returnEvent, hret]
  rw [hret2] at hstep
  exact ⟨hstep, drains_done hstep, rfl⟩

/-- Witness for C4: a concrete failing fetch under the break policy with a
throwing `onError` hook. -/
theorem onError_throw_terminates_witness :
    microStep failCB brkThrowOpts (stF Nat 0 0 1 .null 0) =
      .done (pageEvent brkThrowOpts (stF Nat 0 0 1 .null 0) ++
        [Event.fetchEv (mkParams brkThrowOpts (stF Nat 0 0 1 .null 0))] ++
        [Event.onError ()] ++ [Event.onReturn])
        ⟨.completed, 1, 0, 1, .null, 1⟩ ∧
    Drains failCB brkThrowOpts (stF Nat 0 0 1 .null 0)
      ([], pageEvent brkThrowOpts (stF Nat 0 0 1 .null 0) ++
        [Event.fetchEv (mkParams brkThrowOpts (stF Nat 0 0 1 .null 0))] ++
        [Event.onError ()] ++ [Event.onReturn], none) ∧
    microStep failCB brkThrowOpts ⟨.completed, 1, 0, 1, .null, 1⟩ =
      .done [] ⟨.completed, 1, 0, 1, .null, 1⟩ :=
  onError_throw_terminates Nat Unit failCB brkThrowOpts 0 0 1 .null 0 ()
    (fun _ => true) (Or.inl rfl) rfl rfl rfl rfl

/-- C1, counterexample: under the cursor strategy, after a successful fetch
with `hasNextPage: true` whose `nextCursor` is absent, the next request is
issued with the cursor `undefined` — the previous cursor value "start" is
NOT retained.  (Through the public `paginate` adapter the callback then
sees `cursor: null` because of its `?? null`; either way the pointer has
advanced away from "start".) -/
theorem cursor_not_retained_counterexample :
    drain cbC1 optsC1 5 (initState optsC1) =
      some ([], [Event.fetchEv (.cursorP 10 (.str "start")),
                 Event.fetchEv (.cursorP 10 .undef)], none) ∧
    JSCursor.undef ≠ JSCursor.str "start" := by
  exact ⟨rfl, by decide⟩

/-- C1, amended: under the cursor strategy, when a fetch succeeds with
`hasNextPage: true` the cursor pointer is unconditionally assigned
`pageInfo.nextCursor` — including when that value is absent (`undefined`)
or `null` — so the previous cursor is not retained on the success path;
retention of the previous cursor happens only on the failure-continue path
(line 258 of the source assigns without any guard). -/
theorem cursor_overwritten_on_success (T E : Type) (cb : Callback T E)
    (opts : PaginationOptions E) (ic : JSCursor) (info : PageInfo) (c : Nat)
    (off pg : Int) (cur : JSCursor) (fc : Nat)
    (hstrat : opts.strategy = .cursor ic)
    (hnext : info.hasNextPage = true) :
    microStep cb opts (stY T [] info c off pg cur fc) =
      .internal [] ⟨.fetching, 0, off, pg, info.nextCursor, fc⟩ := by
  rw [microStep_yielding_nil_true hnext]
  simp [advanceSuccess, hstrat, stY]

/-- Witness for C1's amended statement: a concrete success page with
`nextCursor: null` overwrites the previous cursor "prev" with `null`. -/
theorem cursor_overwritten_on_success_witness :
    microStep cbC1 optsC1
      (stY Nat [] ⟨true, .null⟩ 2 0 1 (.str "prev") 3) =
      .internal [] ⟨.fetching, 0, 0, 1, .null, 3⟩ :=
  cursor_overwritten_on_success Nat Unit cbC1 optsC1 (.str "start")
    ⟨true, .null⟩ 2 0 1 (.str "prev") 3 rfl rfl

/-- C9: for every strategy, configuration and fetch callback, any completed
drain of the sequence from its initial state contains at least one fetch
call (the fetch always precedes any termination check); and when the very
first page comes back empty with `hasNextPage: false`, the drain completes
cleanly with zero items and exactly one fetch call. -/
theorem fetch_always_happens (T E : Type) :
    (∀ (cb : Callback T E) (opts : PaginationOptions E) (fuel : Nat)
       (is : List T) (evs : List (Event E)) (r : Option E),
       drain cb opts fuel (initState opts) = some (is, evs, r) →
       1 ≤ evs.countP isFetch) ∧
    (∀ (cb : Callback T E) (opts : PaginationOptions E) (nc : JSCursor),
       cb 0 (mkParams opts (initState opts : MachState T)) =
         .ok ⟨[], ⟨false, nc⟩⟩ →
       ∃ evs, Drains cb opts (initState opts) ([], evs, none) ∧
         evs.countP isFetch = 1) := by
  constructor
  · intro cb opts fuel is evs r hdrain
    obtain ⟨off, pg, cur, heq⟩ := initState_exists T E opts
    rw [heq] at hdrain
    have h1 := drain_le_countP isFetch hdrain
    have h2 := fetching_step_has_fetch cb opts 0 off pg cur 0
    omega
  · intro cb opts nc hcb
    obtain ⟨off, pg, cur, heq⟩ := initState_exists T E opts
    rw [heq] at hcb ⊢
    have hstep1 := microStep_fetch_ok hcb
    have hnf : (⟨false, nc⟩ : PageInfo).hasNextPage = false := rfl
    have hstep2 : microStep cb opts (stY T [] ⟨false, nc⟩ 0 off pg cur 1) =
        .done (returnEvent opts) ⟨.completed, 0, off, pg, cur, 1⟩ :=
      microStep_yielding_nil_false hnf
    have hD2 := drains_done hstep2
    have hD1 := drains_internal hstep1 hD2
    refine ⟨_, hD1, ?_⟩
    simp [List.countP_append, pageEvent_countP opts _ isFetch (fun _ _ _ => rfl),
      returnEvent_countP opts isFetch rfl, isFetch]

/-- Witness for C9: the empty single-page callback is fetched exactly
once. -/
theorem fetch_always_happens_witness :
    ∃ evs, Drains emptyCB thrwOpts (initState thrwOpts) ([], evs, none) ∧
      evs.countP isFetch = 1 :=
  (fetch_always_happens Nat Unit).2 emptyCB thrwOpts .undef rfl

/-- The failure-continue successor state satisfies `failContinueState`. -/
theorem advanceFailure_post (T E : Type) (opts : PaginationOptions E)
    (c : Nat) (off pg : Int) (cur : JSCursor) (fc : Nat) :
    failContinueState opts c off pg cur fc
      ({ (advanceFailure opts (stF T (c + 1) off pg cur (fc + 1)))
          with phase := .fetching } : MachState T) := by
  rcases hs : opts.strategy with io | ip | ic <;>
    refine ⟨by simp [advanceFailure, hs, stF], rfl,
      by simp [advanceFailure, hs, stF], ?_, ?_, ?_⟩ <;>
    intro x hx <;> rw [hs] at hx <;> first
      | (cases hx; simp [advanceFailure, hs, stF])
      | cases hx

/-- C6: when a fetch fails and the resolved error action is continue —
either under the continue policy (with or without an `onError` hook, below
`maxErrorCount`) or under a custom policy whose handler returns true — the
pointer advances for the offset strategy (by `limit`) and the page strategy
(by 1) but remains unchanged for the cursor strategy, and
`consecutiveErrorCount` is incremented, not reset; it is reset to 0 only by
the advancement step that follows a successful fetch. -/
theorem continue_action_pointer (T E : Type) :
    (∀ (cb : Callback T E) (opts : PaginationOptions E) (c : Nat)
       (off pg : Int) (cur : JSCursor) (fc : Nat) (e : E) (f : E → Bool)
       (K : Int),
       opts.errorPolicy = .cont K → opts.hooks.onError = some f →
       f e = false → (c : Int) + 1 < K →
       cb fc (mkParams opts (stF T c off pg cur fc)) = .error e →
       ∃ evs s', microStep cb opts (stF T c off pg cur fc) =
           .internal evs s' ∧ failContinueState opts c off pg cur fc s') ∧
    (∀ (cb : Callback T E) (opts : PaginationOptions E) (c : Nat)
       (off pg : Int) (cur : JSCursor) (fc : Nat) (e : E) (K : Int),
       opts.errorPolicy = .cont K → opts.hooks.onError = none →
       (c : Int) + 1 < K →
       cb fc (mkParams opts (stF T c off pg cur fc)) = .error e →
       ∃ evs s', microStep cb opts (stF T c off pg cur fc) =
           .internal evs s' ∧ failContinueState opts c off pg cur fc s') ∧
    (∀ (cb : Callback T E) (opts : PaginationOptions E) (c : Nat)
       (off pg : Int) (cur : JSCursor) (fc : Nat) (e : E)
       (h : E → Nat → Bool),
       opts.errorPolicy = .custom h → h e (c + 1) = true →
       cb fc (mkParams opts (stF T c off pg cur fc)) = .error e →
       ∃ evs s', microStep cb opts (stF T c off pg cur fc) =
           .internal evs s' ∧ failContinueState opts c off pg cur fc s') ∧
    (∀ (cb : Callback T E) (opts : PaginationOptions E) (info : PageInfo)
       (c : Nat) (off pg : Int) (cur : JSCursor) (fc : Nat),
       info.hasNextPage = true →
       ∃ s', microStep cb opts (stY T [] info c off pg cur fc) =
           .internal [] s' ∧ s'.consecutiveErrorCount = 0) := by
  refine ⟨?_, ?_, ?_, ?_⟩
  · intro cb opts c off pg cur fc e f K hpol hoe hfe hlt hcb
    exact ⟨_, _, microStep_error_cont_continue hpol hoe hfe hlt hcb,
      advanceFailure_post T E opts c off pg cur fc⟩
  · intro cb opts c off pg cur fc e K hpol hoe hlt hcb
    exact ⟨_, _, microStep_error_cont_noHook_continue hpol hoe hlt hcb,
      advanceFailure_post T E opts c off pg cur fc⟩
  · intro cb opts c off pg cur fc e h hpol hh hcb
    exact ⟨_, _, microStep_error_custom_true hpol hh hcb,
      advanceFailure_post T E opts c off pg cur fc⟩
  · intro cb opts info c off pg cur fc hnext
    exact ⟨_, microStep_yielding_nil_true hnext, rfl⟩

/-- Witness for C6: a page-strategy failure under the continue policy with
no `onError` hook and error budget left. -/
theorem continue_action_pointer_witness :
    ∃ evs s', microStep failCB contNoHookOpts (stF Nat 0 0 1 .null 0) =
        .internal evs s' ∧
      failContinueState contNoHookOpts 0 0 1 .null 0 s' :=
  (continue_action_pointer Nat Unit).2.1 failCB contNoHookOpts 0 0 1 .null 0
    () 5 rfl rfl (by decide) rfl

/-- Under the custom policy no micro-step ever produces an `onError` or
`onMaxConsecutiveErrors` invocation. -/
theorem custom_step_no_hooks (cb : Callback T E) (opts : PaginationOptions E)
    (h : E → Nat → Bool) (hpol : opts.errorPolicy = .custom h)
    (s : MachState T) :
    ((microStep cb opts s).events).countP isOnError = 0 ∧
    ((microStep cb opts s).events).countP isOnMax = 0 := by
  have hpg1 := pageEvent_countP opts s isOnError (fun _ _ _ => rfl)
  have hpg2 := pageEvent_countP opts s isOnMax (fun _ _ _ => rfl)
  obtain ⟨ph, c, off, pg, cur, fc⟩ := s
  cases ph with
  | completed => simp [microStep, StepOut.events]
  | yielding rest info =>
      cases rest with
      | nil =>
          by_cases hn : info.hasNextPage
          · rw [microStep_yielding_nil_true hn]
            simp [StepOut.events]
          · have hn2 : info.hasNextPage = false := by simpa using hn
            rw [microStep_yielding_nil_false hn2]
            constructor <;>
              simp [StepOut.events, returnEvent_countP opts isOnError rfl,
                returnEvent_countP opts isOnMax rfl]
      | cons a l => simp [microStep, StepOut.events]
  | fetching =>
      cases hcb : cb fc (mkParams opts (stF T c off pg cur fc)) with
      | ok res =>
          rw [microStep_fetch_ok hcb]
          constructor <;>
            simp [StepOut.events, List.countP_append,
              pageEvent_countP opts _ isOnError (fun _ _ _ => rfl),
              pageEvent_countP opts _ isOnMax (fun _ _ _ => rfl),
              isOnError, isOnMax]
      | error e =>
          by_cases hh : h e (c + 1)
          · rw [microStep_error_custom_true hpol hh hcb]
            constructor <;>
              simp [StepOut.events, List.countP_append,
                pageEvent_countP opts _ isOnError (fun _ _ _ => rfl),
                pageEvent_countP opts _ isOnMax (fun _ _ _ => rfl),
                isOnError, isOnMax]
          · have hh2 : h e (c + 1) = false := by simpa using hh
            rw [microStep_error_custom_false hpol hh2 hcb]
            constructor <;>
              simp [StepOut.events, List.countP_append,
                pageEvent_countP opts _ isOnError (fun _ _ _ => rfl),
                pageEvent_countP opts _ isOnMax (fun _ _ _ => rfl),
                returnEvent_countP opts isOnError rfl,
                returnEvent_countP opts isOnMax rfl,
                isOnError, isOnMax]

/-- C5: under the custom policy, every fetch error invokes the decision
handler with the error and the incremented consecutive-error count, and its
boolean result alone decides the outcome: `true` continues pagination (an
internal step back to the top of the loop), `false` terminates it cleanly
through `onReturn`; and over any run the `onError` and
`onMaxConsecutiveErrors` hooks are never invoked. -/
theorem custom_policy_decides (T E : Type) :
    (∀ (cb : Callback T E) (opts : PaginationOptions E)
       (h : E → Nat → Bool) (c : Nat) (off pg : Int) (cur : JSCursor)
       (fc : Nat) (e : E),
       opts.errorPolicy = .custom h → h e (c + 1) = true →
       cb fc (mkParams opts (stF T c off pg cur fc)) = .error e →
       ∃ s', microStep cb opts (stF T c off pg cur fc) =
           .internal (pageEvent opts (stF T c off pg cur fc) ++
             [Event.fetchEv (mkParams opts (stF T c off pg cur fc))]) s' ∧
         s'.phase = .fetching) ∧
    (∀ (cb : Callback T E) (opts : PaginationOptions E)
       (h : E → Nat → Bool) (c : Nat) (off pg : Int) (cur : JSCursor)
       (fc : Nat) (e : E),
       opts.errorPolicy = .custom h → h e (c + 1) = false →
       cb fc (mkParams opts (stF T c off pg cur fc)) = .error e →
       microStep cb opts (stF T c off pg cur fc) =
         .done (pageEvent opts (stF T c off pg cur fc) ++
           [Event.fetchEv (mkParams opts (stF T c off pg cur fc))] ++
           returnEvent opts)
           ⟨.completed, c + 1, off, pg, cur, fc + 1⟩ ∧
       Drains cb opts (stF T c off pg cur fc)
         ([], pageEvent opts (stF T c off pg cur fc) ++
           [Event.fetchEv (mkParams opts (stF T c off pg cur fc))] ++
           returnEvent opts, none)) ∧
    (∀ (cb : Callback T E) (opts : PaginationOptions E)
       (h : E → Nat → Bool) (fuel : Nat) (s : MachState T) (is : List T)
       (evs : List (Event E)) (r : Option E),
       opts.errorPolicy = .custom h →
       drain cb opts fuel s = some (is, evs, r) →
       evs.countP isOnError = 0 ∧ evs.countP isOnMax = 0) := by
  refine ⟨?_, ?_, ?_⟩
  · intro cb opts h c off pg cur fc e hpol hh hcb
    exact ⟨_, microStep_error_custom_true hpol hh hcb, rfl⟩
  · intro cb opts h c off pg cur fc e hpol hh hcb
    have hstep := microStep_error_custom_false hpol hh hcb
    exact ⟨hstep, drains_done hstep⟩
  · intro cb opts h fuel s is evs r hpol hdrain
    constructor
    · exact drain_countP_zero isOnError
        (fun s2 => (custom_step_no_hooks cb opts h hpol s2).1)
        fuel s is evs r hdrain
    · exact drain_countP_zero isOnMax
        (fun s2 => (custom_step_no_hooks cb opts h hpol s2).2)
        fuel s is evs r hdrain

/-- Witness for C5: a concrete custom-policy error whose handler continues
on the first error. -/
theorem custom_policy_decides_witness :
    ∃ s', microStep failCB customOpts (stF Nat 0 0 1 .null 0) =
        .internal (pageEvent customOpts (stF Nat 0 0 1 .null 0) ++
          [Event.fetchEv (mkParams customOpts (stF Nat 0 0 1 .null 0))]) s' ∧
      s'.phase = .fetching :=
  (custom_policy_decides Nat Unit).1 failCB customOpts
    (fun _ n => decide (n < 2)) 0 0 1 .null 0 () rfl rfl rfl

/-- The continue-policy loop on an always-failing callback: starting from
the top of the loop with error count `c` and `c + r + 1 = K`, the drain
terminates cleanly with no items, `r + 1` further `onError` invocations,
and a single `onMaxConsecutiveErrors` invocation carrying the last error
and the count `K`. -/
theorem contLoop (T E : Type) (K : Nat) (cb : Callback T E)
    (opts : PaginationOptions E) (errf : Nat → E) (f : E → Bool)
    (hpol : opts.errorPolicy = .cont (K : Int))
    (hcb : ∀ n p, cb n p = .error (errf n))
    (hoe : opts.hooks.onError = some f)
    (hnt : ∀ e, f e = false)
    (hmx : opts.hooks.onMaxPresent = true) :
    ∀ (r c : Nat) (off pg : Int) (cur : JSCursor) (fc : Nat),
      c + r + 1 = K →
      ∃ evs, Drains cb opts (stF T c off pg cur fc) ([], evs, none) ∧
        evs.countP isOnError = r + 1 ∧
        evs.filter isOnMax = [Event.onMax (errf (fc + r)) K] := by
  intro r
  induction r with
  | zero =>
      intro c off pg cur fc hK
      have hge : (K : Int) ≤ (c : Int) + 1 := by omega
      have hstep := microStep_error_cont_break hpol hoe (hnt _) hge
        (hcb fc (mkParams opts (stF T c off pg cur fc)))
      have hmx2 : maxEvent opts (errf fc) (c + 1) =
          [Event.onMax (errf fc) (c + 1)] := by simp [maxEvent, hmx]
      rw [hmx2] at hstep
      have hc1 : c + 1 = K := by omega
      refine ⟨_, drains_done hstep, ?_, ?_⟩
      · simp [List.countP_append,
          pageEvent_countP opts _ isOnError (fun _ _ _ => rfl),
          returnEvent_countP opts isOnError rfl, isOnError]
      · simp [List.filter_append,
          pageEvent_filter opts _ isOnMax (fun _ _ _ => rfl),
          returnEvent_filter opts isOnMax rfl, isOnMax, hc1]
  | succ rr ih =>
      intro c off pg cur fc hK
      have hlt : (c : Int) + 1 < K := by omega
      have hstep := microStep_error_cont_continue hpol hoe (hnt _) hlt
        (hcb fc (mkParams opts (stF T c off pg cur fc)))
      obtain ⟨off2, pg2, cur2, hs'⟩ : ∃ off2 pg2 cur2,
          ({ (advanceFailure opts (stF T (c + 1) off pg cur (fc + 1)))
              with phase := .fetching } : MachState T) =
            stF T (c + 1) off2 pg2 cur2 (fc + 1) := by
        rcases hs : opts.strategy with io | ip | ic
        · exact ⟨off + opts.limit, pg, cur, by simp [advanceFailure, hs, stF]⟩
        · exact ⟨(pg + 1 - 1) * opts.limit, pg + 1, cur,
            by simp [advanceFailure, hs, stF]⟩
        · exact ⟨off, pg, cur, by simp [advanceFailure, hs, stF]⟩
      rw [hs'] at hstep
      obtain ⟨evs2, hD2, hcnt2, hflt2⟩ :=
        ih (c + 1) off2 pg2 cur2 (fc + 1) (by omega)
      refine ⟨_, drains_internal hstep hD2, ?_, ?_⟩
      · simp [List.countP_append,
          pageEvent_countP opts _ isOnError (fun _ _ _ => rfl),
          isOnError, hcnt2]
      · have hidx : fc + 1 + rr = fc + (rr + 1) := by omega
        simp [List.filter_append,
          pageEvent_filter opts _ isOnMax (fun _ _ _ => rfl),
          isOnMax, hidx] at hflt2 ⊢
        exact hflt2

/-- C2: under the continue policy with positive `maxErrorCount = K` and a
callback failing on every call, the sequence terminates cleanly (no thrown
error) with no items after the `onError` hook has run exactly `K` times,
and `onMaxConsecutiveErrors` has run exactly once, with the last error and
the count `K`. -/
theorem continue_policy_exhaustion (T E : Type) (K : Nat)
    (cb : Callback T E) (opts : PaginationOptions E) (errf : Nat → E)
    (f : E → Bool) (hK : 1 ≤ K)
    (hpol : opts.errorPolicy = .cont (K : Int))
    (hcb : ∀ n p, cb n p = .error (errf n))
    (hoe : opts.hooks.onError = some f)
    (hnt : ∀ e, f e = false)
    (hmx : opts.hooks.onMaxPresent = true) :
    ∃ evs, Drains cb opts (initState opts) ([], evs, none) ∧
      evs.countP isOnError = K ∧
      evs.filter isOnMax = [Event.onMax (errf (K - 1)) K] := by
  obtain ⟨off, pg, cur, heq⟩ := initState_exists T E opts
  rw [heq]
  obtain ⟨evs, hD, hcnt, hflt⟩ :=
    contLoop T E K cb opts errf f hpol hcb hoe hnt hmx (K - 1) 0 off pg cur 0
      (by omega)
  refine ⟨evs, hD, by omega, ?_⟩
  simpa using hflt

/-- Witness for C2: `maxErrorCount = 1`, the callback fails every call. -/
theorem continue_policy_exhaustion_witness :
    ∃ evs, Drains failCB contOpts (initState contOpts) ([], evs, none) ∧
      evs.countP isOnError = 1 ∧
      evs.filter isOnMax = [Event.onMax () 1] :=
  continue_policy_exhaustion Nat Unit 1 failCB contOpts (fun _ => ())
    (fun _ => false) (by decide) rfl (fun _ _ => rfl) rfl (fun _ => rfl) rfl

theorem fetchParamsOf_append (a b : List (Event E)) :
    fetchParamsOf (a ++ b) = fetchParamsOf a ++ fetchParamsOf b := by
  simp [fetchParamsOf]

theorem fetchParamsOf_fetchEv {E : Type} (p : FetchParams) :
    fetchParamsOf ([Event.fetchEv p] : List (Event E)) = [p] := rfl

/-- Consuming one full page decrements the ceiling page count. -/
theorem ceilNat_step (L m : Nat) (hL : 1 ≤ L) (hm : L < m) :
    ceilNat m L = ceilNat (m - L) L + 1 := by
  obtain ⟨a, rfl⟩ : ∃ a, m = a + L := ⟨m - L, by omega⟩
  unfold ceilNat
  have e1 : a + L + L - 1 = (a + L - 1) + L := by omega
  rw [Nat.add_sub_cancel, e1, Nat.add_div_right _ (by omega)]

/-- A final short page still counts as one page. -/
theorem ceilNat_last (L m : Nat) (h1 : 1 ≤ m) (h2 : m ≤ L) :
    ceilNat m L = 1 := by
  unfold ceilNat
  have e1 : m + L - 1 = (m - 1) + L := by omega
  rw [e1, Nat.add_div_right _ (by omega)]
  have e2 : (m - 1) / L = 0 := Nat.div_eq_of_lt (by omega)
  omega

/-- Fully draining the offset-strategy generator over the slice server,
starting at offset `o` with at least one item remaining: it yields exactly
the remaining items, in order, and issues `ceil((N - o)/L)` fetches at
offsets `o, o + L, o + 2L, ...`. -/
theorem slice_loop (T : Type) (xs : List T) (L : Nat) (hL : 1 ≤ L)
    (opts : PaginationOptions Unit) (iniOff : Option Int)
    (hstrat : opts.strategy = .offset iniOff)
    (hlim : opts.limit = (L : Int)) :
    ∀ (n o c : Nat) (pg : Int) (cur : JSCursor) (fc : Nat),
      xs.length - o ≤ n → o < xs.length →
      ∃ evs, Drains (sliceServer xs) opts
          (stF T c ((o : Nat) : Int) pg cur fc) (xs.drop o, evs, none) ∧
        fetchParamsOf evs = (List.range (ceilNat (xs.length - o) L)).map
          (fun j => FetchParams.offsetP (L : Int) ((o + j * L : Nat) : Int)) := by
  intro n
  induction n with
  | zero => intro o c pg cur fc h1 h2; omega
  | succ n ih =>
      intro o c pg cur fc h1 h2
      have hparams : mkParams opts (stF T c ((o : Nat) : Int) pg cur fc) =
          .offsetP opts.limit ((o : Nat) : Int) := by
        simp [mkParams, hstrat, stF]
      by_cases hnp : o + L < xs.length
      · have hcb : sliceServer xs fc
            (mkParams opts (stF T c ((o : Nat) : Int) pg cur fc)) =
            .ok ⟨(xs.drop o).take L, ⟨true, .undef⟩⟩ := by
          rw [hparams, hlim]
          simp [sliceServer]
          omega
        have hstep1 := microStep_fetch_ok hcb
        have hstep2 : microStep (sliceServer xs) opts
            (stY T [] ⟨true, .undef⟩ c ((o : Nat) : Int) pg cur (fc + 1)) =
            .internal [] ⟨.fetching, 0, ((o : Nat) : Int) + opts.limit,
              pg, cur, fc + 1⟩ := by
          rw [microStep_yielding_nil_true rfl]
          simp [advanceSuccess, hstrat, stY]
        have hoff : ((o : Nat) : Int) + opts.limit =
            ((o + L : Nat) : Int) := by
          rw [hlim]; push_cast; ring
        rw [hoff] at hstep2
        obtain ⟨evs2, hD2, hfp2⟩ := ih (o + L) 0 pg cur (fc + 1)
          (by omega) hnp
        have hD3 := drains_internal hstep2 hD2
        have hD4 := drains_yielding_append ((xs.drop o).take L)
          ⟨true, .undef⟩ c ((o : Nat) : Int) pg cur (fc + 1) hD3
        have hD5 := drains_internal hstep1 hD4
        have hdd : xs.drop (o + L) = (xs.drop o).drop L := by
          rw [List.drop_drop, Nat.add_comm]
        have hitems : (xs.drop o).take L ++ xs.drop (o + L) = xs.drop o := by
          rw [hdd]; exact List.take_append_drop L (xs.drop o)
        rw [hitems] at hD5
        refine ⟨_, hD5, ?_⟩
        have hms : xs.length - o - L = xs.length - (o + L) := by omega
        have hceil : ceilNat (xs.length - o) L =
            ceilNat (xs.length - (o + L)) L + 1 := by
          rw [← hms]
          exact ceilNat_step L (xs.length - o) hL (by omega)
        rw [hceil, List.range_succ_eq_map]
        simp only [List.nil_append, fetchParamsOf_append,
          fetchParamsOf_fetchEv, pageEvent_fetchParams, List.map_cons,
          List.map_map, List.nil_append, List.singleton_append]
        rw [hfp2]
        congr 1
        · rw [hparams, hlim]
          simp
        · apply List.map_congr_left
          intro j _
          simp only [Function.comp]
          congr 1
          push_cast
          ring
      · have hcb : sliceServer xs fc
            (mkParams opts (stF T c ((o : Nat) : Int) pg cur fc)) =
            .ok ⟨(xs.drop o).take L, ⟨false, .undef⟩⟩ := by
          rw [hparams, hlim]
          simp [sliceServer]
          omega
        have hstep1 := microStep_fetch_ok hcb
        have hstep2 : microStep (sliceServer xs) opts
            (stY T [] ⟨false, .undef⟩ c ((o : Nat) : Int) pg cur (fc + 1)) =
            .done (returnEvent opts)
              ⟨.completed, c, ((o : Nat) : Int), pg, cur, fc + 1⟩ :=
          microStep_yielding_nil_false rfl
        have hD2 := drains_done hstep2
        have hD3 := drains_yielding_append ((xs.drop o).take L)
          ⟨false, .undef⟩ c ((o : Nat) : Int) pg cur (fc + 1) hD2
        have hD4 := drains_internal hstep1 hD3
        have htake : (xs.drop o).take L = xs.drop o :=
          List.take_of_length_le (by simp; omega)
        rw [htake, List.append_nil] at hD4
        refine ⟨_, hD4, ?_⟩
        have hceil : ceilNat (xs.length - o) L = 1 :=
          ceilNat_last L _ (by omega) (by omega)
        rw [hceil]
        have hr1 : List.range 1 = [0] := rfl
        simp only [fetchParamsOf_append, fetchParamsOf_fetchEv,
          pageEvent_fetchParams, returnEvent_fetchParams, hr1,
          List.map_cons, List.map_nil, List.nil_append, List.append_nil,
          List.singleton_append]
        rw [hparams, hlim]
        simp

/-- C3, amended: for every nonempty item list and positive page size `L`,
the offset strategy starting at offset 0 over the deterministic slice
server yields exactly the items in original order, calling the fetch
function exactly `ceil(N/L)` times with offsets `0, L, 2L, ...`.  (For
`N = 0` the claim as stated fails — the generator still fetches once, see
the counterexample — so the item list is required nonempty here.) -/
theorem offset_full_drain (T : Type) (xs : List T) (L : Nat)
    (opts : PaginationOptions Unit) (iniOff : Option Int)
    (hL : 1 ≤ L) (hne : xs ≠ [])
    (hstrat : opts.strategy = .offset iniOff) (hio : iniOff.getD 0 = 0)
    (hlim : opts.limit = (L : Int)) :
    ∃ evs, Drains (sliceServer xs) opts (initState opts) (xs, evs, none) ∧
      fetchParamsOf evs = (List.range (ceilNat xs.length L)).map
        (fun k => FetchParams.offsetP (L : Int) ((k * L : Nat) : Int)) := by
  have heq : (initState opts : MachState T) =
      stF T 0 (((0 : Nat) : Nat) : Int) 1 .null 0 := by
    simp [initState, hstrat, hio, stF]
  rw [heq]
  have hpos : 0 < xs.length := List.length_pos.mpr hne
  obtain ⟨evs, hD, hfp⟩ := slice_loop T xs L hL opts iniOff hstrat hlim
    xs.length 0 0 1 .null 0 (by omega) hpos
  rw [List.drop_zero] at hD
  refine ⟨evs, hD, ?_⟩
  rw [hfp]
  simp

/-- C3, counterexample: with zero items (N = 0) and L = 1, the generator
still performs one fetch (at offset 0) before it can observe
`hasNextPage: false`, so the fetch count is 1 while `ceil(N/L) = 0`; the
claim's universally quantified call count is wrong at N = 0. -/
theorem offset_zero_items_counterexample :
    drain (sliceServer ([] : List Nat)) (offsetOpts 1) 3
        (initState (offsetOpts 1)) =
      some ([], [Event.fetchEv (.offsetP 1 0)], none) ∧
    (fetchParamsOf ([Event.fetchEv (.offsetP 1 0)] : List (Event Unit))).length
      = 1 ∧
    ceilNat ([] : List Nat).length 1 = 0 :=
  ⟨rfl, rfl, rfl⟩

/-- Witness for C3's amended statement: three items in pages of two. -/
theorem offset_full_drain_witness :
    ∃ evs, Drains (sliceServer [10, 20, 30]) (offsetOpts 2)
        (initState (offsetOpts 2)) ([10, 20, 30], evs, none) ∧
      fetchParamsOf evs = (List.range (ceilNat 3 2)).map
        (fun k => FetchParams.offsetP ((2 : Nat) : Int)
          ((k * 2 : Nat) : Int)) :=
  offset_full_drain Nat [10, 20, 30] 2 (offsetOpts 2) (some 0) (by decide)
    (by decide) rfl rfl rfl

end Paginate
